import Mathlib

/-!
# Verification of the code-prompt-prep pipeline

Shallow embedding of the core pipeline of the `code-prompt-prep` repository:

* `minifyCode` - the content transform (`src/utils.ts`): strips `//` line
  comments (with a `(?<!:)` lookbehind protecting URLs), strips `/* ... */`
  block comments, normalizes line endings and collapses whitespace.
* `filterFiles` - the include/exclude selection filter
  (`src/fileProcessor.ts`).
* `processFile` / `OutputBuffer` - per-file processing and the buffered
  output sink (`src/fileProcessor.ts`, buffered variant).
* `loadIgnorePatterns`, the run driver fragments of `src/index.ts`
  (`main` processing loop, `cleanup`, SIGINT handling).

External collaborators (the `ignore` matcher, Node `path` functions, the
file system) are modeled as function parameters; JavaScript regex
replacement passes are modeled as executable character-list scanners that
follow the engine semantics (left-to-right global scan over the original
string, lookbehind reads the original character).
-/


/-! ## Character classes (JavaScript regex / String.prototype semantics) -/

/-- JavaScript whitespace class `\s` (also the class trimmed by
`String.prototype.trim`): ASCII whitespace, NBSP, the Unicode space
separators, line/paragraph separators and the BOM. -/
def isJsWs (c : Char) : Bool :=
  let n := c.toNat
  n = 0x20 || n = 0x09 || n = 0x0a || n = 0x0b || n = 0x0c || n = 0x0d ||
  n = 0xa0 || n = 0x1680 || (0x2000 ≤ n && n ≤ 0x200a) ||
  n = 0x2028 || n = 0x2029 || n = 0x202f || n = 0x205f || n = 0x3000 || n = 0xfeff

/-- JavaScript regex line terminators (what `.` excludes and `$` with the
`m` flag stops before). -/
def isLineTerm (c : Char) : Bool :=
  let n := c.toNat
  n = 0x0a || n = 0x0d || n = 0x2028 || n = 0x2029

/-! ## Pass 1: `content.replace(/(?<!:)\/\/.*$/gm, '')`

Left-to-right scan; a `//` whose preceding original character is not `:`
starts a match that consumes up to (not including) the next line
terminator; scanning resumes at that terminator.  `prev` tracks the
original character immediately before the current position (for the
lookbehind); `skipping` is true while inside a matched comment.  The fuel
argument only bounds the recursion depth; every step consumes at least one
list element, so `l.length + 1` fuel is never exhausted. -/

def slcFuel : Nat → Bool → Option Char → List Char → List Char
  | 0, _, _, l => l
  | _ + 1, _, _, [] => []
  | fuel + 1, true, _, c :: cs =>
      if isLineTerm c then c :: slcFuel fuel false (some c) cs
      else slcFuel fuel true none cs
  | fuel + 1, false, prev, '/' :: '/' :: rest =>
      if prev = some ':' then '/' :: slcFuel fuel false (some '/') ('/' :: rest)
      else slcFuel fuel true (some '/') rest
  | fuel + 1, false, _, c :: cs => c :: slcFuel fuel false (some c) cs

/-- Strip `//` line comments exactly as `/(?<!:)\/\/.*$/gm` does. -/
def stripLineComments (l : List Char) : List Char :=
  slcFuel (l.length + 1) false none l

/-! ## Pass 2: `content.replace(/\/\*[\s\S]*?\*\//g, '')` -/

/-- Find the earliest `*/` and return the remainder after it (the lazy
`[\s\S]*?\*\/` continuation). -/
def findBlockClose : List Char → Option (List Char)
  | [] => none
  | '*' :: '/' :: rest => some rest
  | _ :: cs => findBlockClose cs

def sbcFuel : Nat → List Char → List Char
  | 0, l => l
  | _ + 1, [] => []
  | fuel + 1, '/' :: '*' :: rest =>
      (match findBlockClose rest with
       | some rest2 => sbcFuel fuel rest2
       | none => '/' :: '*' :: rest)
  | fuel + 1, c :: cs => c :: sbcFuel fuel cs

/-- Strip `/* ... */` block comments exactly as `/\/\*[\s\S]*?\*\//g`
does: non-greedy close, global scan continuing after each removed match
over the original string (so text exposed by a removal is not rescanned),
and a `/*` with no later `*/` is left in place. -/
def stripBlockComments (l : List Char) : List Char :=
  sbcFuel (l.length + 1) l

/-! ## Pass 3 -- 5: `.replace(/\r\n/g, '\n')`, split/trim/filter/join,
`.replace(/\s+/g, ' ').trim()` -/

/-- `content.replace(/\r\n/g, '\n')`. -/
def normCRLF : List Char → List Char
  | [] => []
  | [c] => [c]
  | c :: d :: rest =>
      if c = '\r' ∧ d = '\n' then '\n' :: normCRLF rest
      else c :: normCRLF (d :: rest)

/-- `String.prototype.split('\n')` (empty pieces kept, `"" → [""]`). -/
def splitNl : List Char → List (List Char)
  | [] => [[]]
  | c :: cs =>
      if c = '\n' then [] :: splitNl cs
      else
        match splitNl cs with
        | l :: ls => (c :: l) :: ls
        | [] => [[c]]

/-- `Array.prototype.join(' ')`. -/
def joinSp : List (List Char) → List Char
  | [] => []
  | [l] => l
  | l :: ls => l ++ ' ' :: joinSp ls

/-- Scanner for `.replace(/\s+/g, ' ')`: `afterWs` is true while inside a
whitespace run that has already produced its single space. -/
def collapseWsGo : Bool → List Char → List Char
  | _, [] => []
  | afterWs, c :: cs =>
      if isJsWs c then
        if afterWs then collapseWsGo true cs
        else ' ' :: collapseWsGo true cs
      else c :: collapseWsGo false cs

def collapseWs (l : List Char) : List Char := collapseWsGo false l

/-- Remove trailing JavaScript whitespace. -/
def trimEndW : List Char → List Char
  | [] => []
  | c :: cs =>
      match trimEndW cs with
      | [] => if isJsWs c then [] else [c]
      | r => c :: r

/-- `String.prototype.trim()`. -/
def jsTrim (l : List Char) : List Char := trimEndW (l.dropWhile isJsWs)

/-- The content transform of `src/utils.ts` (`minifyCode`): strip line
comments (URL-protecting lookbehind), strip block comments, normalize
CRLF, split into lines, trim each, drop empties, join with single spaces,
collapse remaining whitespace runs and trim. -/
def minifyCode (s : String) : String :=
  let c1 := stripLineComments s.data
  let c2 := stripBlockComments c1
  let c3 := normCRLF c2
  let ls := ((splitNl c3).map jsTrim).filter (fun l => !l.isEmpty)
  String.mk (jsTrim (collapseWs (joinSp ls)))

/-! ## The selection filter (`filterFiles`, `src/fileProcessor.ts`)

`ignores` models `gitignorePatterns.ignores` (the external `ignore`
package), `relative` models `path.relative` and `pathJoin` models
`path.join`; all three are external collaborators passed as functions. -/

/-- JavaScript `String.prototype.endsWith` (no position argument). -/
def jsEndsWith (s post : String) : Bool := post.data.isSuffixOf s.data

/-- JavaScript `String.prototype.startsWith` (no position argument). -/
def jsStartsWith (s pre : String) : Bool := pre.data.isPrefixOf s.data

/-- One include or exclude rule set (`FilterOptions` of
`src/types/schema.ts`). -/
structure FilterOptions where
  files : List String
  extensions : List String
  folders : List String
deriving DecidableEq

/-- `FilterOptions` with every list empty (the zod defaults). -/
def emptyFilter : FilterOptions := ⟨[], [], []⟩

/-- The `hasFilters` test of `filterFiles` (and of `main` in
`src/index.ts`): any of the six lists non-empty. -/
def hasFilters (incl excl : FilterOptions) : Bool :=
  incl.files.length > 0 || incl.extensions.length > 0 || incl.folders.length > 0 ||
  excl.files.length > 0 || excl.extensions.length > 0 || excl.folders.length > 0

/-- The per-candidate predicate of the filtered branch of `filterFiles`:
ignore patterns first, then the three exclusion checks, then the three
inclusion checks, else reject. -/
def filterPred (projectPath : String) (incl excl : FilterOptions)
    (ignores : String → Bool) (relative pathJoin : String → String → String)
    (file : String) : Bool :=
  let relPath := relative projectPath file
  if ignores relPath then false
  else if excl.files.contains relPath then false
  else if excl.extensions.any (fun ext => jsEndsWith file ext) then false
  else if excl.folders.any (fun folder => jsStartsWith file (pathJoin projectPath folder)) then false
  else if incl.files.contains relPath then true
  else if incl.extensions.any (fun ext => jsEndsWith file ext)
          || incl.folders.any (fun folder => jsStartsWith file (pathJoin projectPath folder)) then true
  else false

/-- `filterFiles` of `src/fileProcessor.ts`: pass-through (ignore
patterns only) when no filter list is given, otherwise the layered
exclude-then-include predicate. -/
def filterFiles (files : List String) (projectPath : String)
    (incl excl : FilterOptions) (ignores : String → Bool)
    (relative pathJoin : String → String → String) : List String :=
  if !hasFilters incl excl then
    files.filter (fun file => !(ignores (relative projectPath file)))
  else
    files.filter (filterPred projectPath incl excl ignores relative pathJoin)

/-! ## The buffered output sink (`OutputBuffer`, `src/fileProcessor.ts`)

Sequential (awaited) semantics: an `add` whose threshold check fires
completes its flush before the next `add` begins.  `flushed` is the
content durably written to the artifact file; `bufferSize` counts string
length as `content.length` does.  A separate event-level model below
(`StreamBuf`) exposes the gap between write initiation and the write
callback that the sequential model hides. -/

def WRITE_BUFFER_SIZE : Nat := 5 * 1024 * 1024

def MAX_BUFFER_ENTRIES : Nat := 100

structure OutputBuffer where
  buffer : List String
  bufferSize : Nat
  flushed : String
deriving DecidableEq

/-- `OutputBuffer.flush`: write the joined buffer to the stream and clear
it (no-op on an empty buffer). -/
def OutputBuffer.flush (b : OutputBuffer) : OutputBuffer :=
  if b.buffer.isEmpty then b
  else { buffer := [], bufferSize := 0, flushed := b.flushed ++ String.join b.buffer }

/-- `OutputBuffer.add`: push the content, then flush when the size or
entry-count threshold is reached. -/
def OutputBuffer.add (b : OutputBuffer) (content : String) : OutputBuffer :=
  let b2 : OutputBuffer :=
    { b with buffer := b.buffer ++ [content], bufferSize := b.bufferSize + content.length }
  if WRITE_BUFFER_SIZE ≤ b2.bufferSize || MAX_BUFFER_ENTRIES ≤ b2.buffer.length then b2.flush
  else b2

/-- `OutputBuffer.close`: flush the remainder and end the stream. -/
def OutputBuffer.close (b : OutputBuffer) : OutputBuffer := b.flush

/-- `createOutputBuffer`: opens the write stream, creating the (empty)
artifact file. -/
def createOutputBuffer : OutputBuffer := ⟨[], 0, ""⟩

/-- `closeOutputBuffer` of `src/fileProcessor.ts`. -/
def closeOutputBuffer (b : OutputBuffer) : OutputBuffer := b.close

/-! ## Per-file processing (`processFile`, `src/fileProcessor.ts`)

`fsRead` models reading the file content (`Except.error` is a thrown read
error); any failure is caught and wrapped in a `FileProcessingError`, and
the single whole-block `add` is the last operation of the happy path. -/

structure FileProcessingError where
  message : String
  filePath : String
deriving DecidableEq

def processFile (fsRead : String → Except String String)
    (relative : String → String → String)
    (filePath projectPath : String) (buf : OutputBuffer) :
    Except FileProcessingError OutputBuffer :=
  let relPath := relative projectPath filePath
  match fsRead filePath with
  | Except.ok content =>
      Except.ok (buf.add (relPath ++ "\n" ++ minifyCode content ++ "\n\n"))
  | Except.error e =>
      Except.error ⟨"Failed to process file: " ++ e, filePath⟩

/-! ## The processing loop of `main` (`src/index.ts`)

All queued tasks execute (a rejected task does not cancel the queued
rest); `queue.addAll` rejects with the first failure, and `main`'s catch
block then reports that failure and returns **without** calling
`closeOutputBuffer`, so on a failing run only content already flushed is
durable. -/

def runQueue (fsRead : String → Except String String)
    (relative : String → String → String) (projectPath : String)
    (files : List String) (buf : OutputBuffer) :
    OutputBuffer × Option FileProcessingError :=
  files.foldl
    (fun acc f =>
      match processFile fsRead relative f projectPath acc.1 with
      | Except.ok b2 => (b2, acc.2)
      | Except.error err => (acc.1, acc.2.orElse (fun _ => some err)))
    (buf, none)

/-- The durable artifact content after `main`'s processing section: on
success the buffer is closed (flushed); on the first per-file failure the
catch block skips `closeOutputBuffer`. -/
def mainArtifact (fsRead : String → Except String String)
    (relative : String → String → String) (projectPath : String)
    (files : List String) : String :=
  let r := runQueue fsRead relative projectPath files createOutputBuffer
  match r.2 with
  | none => (r.1.close).flushed
  | some _ => r.1.flushed

/-- `path.relative` for the simple case of a file directly under the
project root (used to instantiate the abstract `relative` parameter in
concrete runs). -/
def relFromRoot : String → String → String :=
  fun pp f => String.mk (f.data.drop (pp.data.length + 1))

/-! ## C3: the five-file partial-failure run (P7 of the specification) -/

/-- File system of the P7 scenario: five files, `c.js` unreadable. -/
def fsFive : String → Except String String := fun p =>
  if p = "/p/a.js" then Except.ok "const a=1;"
  else if p = "/p/b.js" then Except.ok "const b=2;"
  else if p = "/p/c.js" then Except.error "EACCES: permission denied"
  else if p = "/p/d.js" then Except.ok "const d=4;"
  else if p = "/p/e.js" then Except.ok "const e=5;"
  else Except.error "ENOENT"

/-- The same five files with `c.js` readable (the reference success run). -/
def fsFiveOk : String → Except String String := fun p =>
  if p = "/p/c.js" then Except.ok "const c=3;" else fsFive p

def fiveFiles : List String := ["/p/a.js", "/p/b.js", "/p/c.js", "/p/d.js", "/p/e.js"]

/-! ## Interruption cleanup (`cleanup` and the SIGINT handler,
`src/index.ts`)

`cleanup` stops and clears the tracked spinners and, when a run is in
flight, closes the tracked output buffer (`closeOutputBuffer`, i.e.
flush then end); the SIGINT handler calls `cleanup` and exits 0.
`artifactExists` tracks whether the timestamped output file is on disk
(created when the write stream is opened); `artifactContent` is its
durable content. -/

structure AppState where
  activeSpinners : Nat
  currentOutputBuffer : Option OutputBuffer
  artifactExists : Bool
  artifactContent : String
deriving DecidableEq

/-- `cleanup` of `src/index.ts`: stop all spinners, close the output
buffer if present.  It performs no file-system removal. -/
def cleanup (s : AppState) : AppState :=
  match s.currentOutputBuffer with
  | some b =>
      { activeSpinners := 0, currentOutputBuffer := none,
        artifactExists := s.artifactExists,
        artifactContent := (closeOutputBuffer b).flushed }
  | none => { s with activeSpinners := 0 }

/-- A run interrupted mid-way: one spinner active, one of many selected
files processed and its block still unflushed, artifact file created and
empty. -/
def interruptedState : AppState :=
  { activeSpinners := 1,
    currentOutputBuffer := some ⟨["a.js\nconst x=1;\n\n"], 17, ""⟩,
    artifactExists := true,
    artifactContent := "" }

/-! ## Ignore-pattern loading (`loadIgnorePatterns`, `src/fileProcessor.ts`)

The ignore instance is modeled as the list of pattern chunks added to it;
`readGitignore` models `fs.readFile` on the project ignore file
(`Except.error` is a thrown read error). -/

structure GitignoreError where
  message : String
deriving DecidableEq

deriving instance DecidableEq for Except

def loadIgnorePatterns (defaultPatterns : List String) (gitignoreExists : Bool)
    (readGitignore : Except String String) : Except GitignoreError (List String) :=
  let ig := defaultPatterns
  if gitignoreExists then
    match readGitignore with
    | Except.ok content => Except.ok (ig ++ [content])
    | Except.error e => Except.error ⟨"Failed to load ignore patterns: " ++ e⟩
  else Except.ok ig

/-- Outcome of the ignore-loading phase of `main` (`src/index.ts`): a
`GitignoreError` thrown by `loadIgnorePatterns` reaches the outer catch,
which prints a fatal error and calls `process.exit(1)`. -/
inductive RunStart where
  | started : List String → RunStart
  | fatalExit : Nat → RunStart
deriving DecidableEq

def mainLoadPhase (defaultPatterns : List String) (gitignoreExists : Bool)
    (readGitignore : Except String String) : RunStart :=
  match loadIgnorePatterns defaultPatterns gitignoreExists readGitignore with
  | Except.ok ps => RunStart.started ps
  | Except.error _ => RunStart.fatalExit 1

/-! ## Event-level model of the sink under concurrency (C5)

In `OutputBuffer.flush` the stream write is initiated synchronously, but
the buffer is cleared only in the **write callback**
(`this.writeStream.write(content, err => { ... this.buffer = [] ... })`).
Between a worker's threshold-crossing `add` (push + snapshot + write
initiation, one JavaScript turn) and the callback, other workers' `add`
calls can run.  `StreamBuf` separates the two: `SinkEv.add` is a worker's
`add` turn, `SinkEv.wcb` is one write callback.  `written` is the text
handed to the stream in initiation order (the artifact content). -/

inductive SinkEv where
  | add : String → SinkEv
  | wcb : SinkEv
deriving DecidableEq

structure StreamBuf where
  buffer : List String
  bufferSize : Nat
  written : String
  pendingCbs : Nat
deriving DecidableEq

def stepEv (s : StreamBuf) : SinkEv → StreamBuf
  | SinkEv.add b =>
      let buf := s.buffer ++ [b]
      let sz := s.bufferSize + b.length
      if WRITE_BUFFER_SIZE ≤ sz || MAX_BUFFER_ENTRIES ≤ buf.length then
        { buffer := buf, bufferSize := sz,
          written := s.written ++ String.join buf, pendingCbs := s.pendingCbs + 1 }
      else { s with buffer := buf, bufferSize := sz }
  | SinkEv.wcb =>
      if s.pendingCbs = 0 then s
      else { s with buffer := [], bufferSize := 0, pendingCbs := s.pendingCbs - 1 }

def runEvents (evs : List SinkEv) : StreamBuf :=
  evs.foldl stepEv ⟨[], 0, "", 0⟩

/-- `close` after the run: flush whatever is still buffered and end the
stream; the artifact is everything handed to the stream. -/
def closeArtifact (s : StreamBuf) : String := s.written ++ String.join s.buffer

/-- The 101 per-file blocks of a run over files `f0 .. f100`, each with
content `"x"`. -/
def raceBlocks : List String :=
  (List.range 101).map (fun i => "f" ++ toString i ++ "\nx\n\n")

/-- A feasible event order for that run with concurrency at least 2: the
first 100 `add` turns fill the buffer and the 100th initiates a flush;
the 101st `add` runs before the write callback, sees the still-uncleared
buffer over the entry threshold again, and initiates a second flush of
the same 100 blocks plus its own; the two callbacks then fire. -/
def raceSchedule : List SinkEv :=
  raceBlocks.map SinkEv.add ++ [SinkEv.wcb, SinkEv.wcb]

/-- No two adjacent characters are both JavaScript whitespace. -/
def noAdjWs : List Char → Prop
  | a :: b :: t => ¬(isJsWs a = true ∧ isJsWs b = true) ∧ noAdjWs (b :: t)
  | _ => True

/-! ## Theorems -/

/-- C1 helper: with all include lists empty, the filtered-branch predicate
rejects every file. -/
theorem filterPred_false_of_empty_include (projectPath : String)
    (excl : FilterOptions) (ignores : String → Bool)
    (relative pathJoin : String → String → String) (file : String) :
    filterPred projectPath emptyFilter excl ignores relative pathJoin file = false := by
  unfold filterPred emptyFilter
  simp only [List.contains, List.any_nil, List.elem_nil, Bool.or_false]
  split <;> [rfl; skip]
  split <;> [rfl; skip]
  split <;> [rfl; skip]
  split <;> rfl

/-- **C1**: exclude-only configurations select nothing.  If all three
include lists are empty and at least one exclude list is non-empty, every
candidate (even one no exclusion rejects) fails the inclusion checks, so
`filterFiles` returns the empty selection. -/
theorem filterFiles_excludeOnly_empty (files : List String) (projectPath : String)
    (excl : FilterOptions) (ignores : String → Bool)
    (relative pathJoin : String → String → String)
    (hx : excl.files ≠ [] ∨ excl.extensions ≠ [] ∨ excl.folders ≠ []) :
    filterFiles files projectPath emptyFilter excl ignores relative pathJoin = [] := by
  have hhf : hasFilters emptyFilter excl = true := by
    unfold hasFilters emptyFilter
    rcases hx with h | h | h <;>
      simp [List.length_pos, h]
  unfold filterFiles
  rw [hhf]
  simp only [Bool.not_true, Bool.false_eq_true, if_false]
  rw [List.filter_eq_nil_iff]
  intro f _
  simp [filterPred_false_of_empty_include]

/-- **C1 witness**: a configuration excluding one extension and including
nothing selects nothing from a two-file candidate list. -/
theorem filterFiles_excludeOnly_empty_witness :
    (FilterOptions.mk [] [".md"] []).extensions ≠ [] ∧
    filterFiles ["/p/a.js", "/p/b.md"] "/p" emptyFilter (FilterOptions.mk [] [".md"] [])
      (fun _ => false) (fun pp f => String.mk (f.data.drop (pp.data.length + 1))) (fun pp f => pp ++ "/" ++ f) = [] :=
  ⟨by decide,
   filterFiles_excludeOnly_empty ["/p/a.js", "/p/b.md"] "/p" (FilterOptions.mk [] [".md"] [])
     (fun _ => false) (fun pp f => String.mk (f.data.drop (pp.data.length + 1))) (fun pp f => pp ++ "/" ++ f)
     (Or.inr (Or.inl (by decide)))⟩

/-- **C6**: pass-through mode.  With all six include/exclude lists empty,
`filterFiles` returns exactly the input files the ignore patterns do not
match: the result is the plain filter of the input (so a sublist of the
input, in input order), a file is in the result iff it is a non-ignored
input file, and every non-ignored file keeps its multiplicity. -/
theorem filterFiles_passthrough (files : List String) (projectPath : String)
    (ignores : String → Bool) (relative pathJoin : String → String → String) :
    filterFiles files projectPath emptyFilter emptyFilter ignores relative pathJoin
      = files.filter (fun file => !(ignores (relative projectPath file))) ∧
    (filterFiles files projectPath emptyFilter emptyFilter ignores relative pathJoin).Sublist files ∧
    (∀ f, f ∈ filterFiles files projectPath emptyFilter emptyFilter ignores relative pathJoin
        ↔ f ∈ files ∧ ignores (relative projectPath f) = false) ∧
    (∀ f, ignores (relative projectPath f) = false →
      (filterFiles files projectPath emptyFilter emptyFilter ignores relative pathJoin).count f
        = files.count f) := by
  have hpass : filterFiles files projectPath emptyFilter emptyFilter ignores relative pathJoin
      = files.filter (fun file => !(ignores (relative projectPath file))) := by
    unfold filterFiles hasFilters emptyFilter
    simp
  refine ⟨hpass, ?_, ?_, ?_⟩
  · rw [hpass]; exact List.filter_sublist files
  · intro f
    rw [hpass, List.mem_filter]
    simp
  · intro f hf
    rw [hpass]
    apply List.count_filter
    simp [hf]

/-- **C6 witness**: concrete pass-through run with one ignored file. -/
theorem filterFiles_passthrough_witness :
    (fun r => r = "b.md") ((fun pp f => String.mk (f.data.drop (pp.data.length + 1))) "/p" "/p/b.md") = false ∨
    (filterFiles ["/p/a.js", "/p/b.md", "/p/a.js"] "/p" emptyFilter emptyFilter
        (fun r => r = "b.md") (fun pp f => String.mk (f.data.drop (pp.data.length + 1)))
        (fun pp f => pp ++ "/" ++ f)).count "/p/a.js"
      = (["/p/a.js", "/p/b.md", "/p/a.js"] : List String).count "/p/a.js" :=
  Or.inr
    ((filterFiles_passthrough ["/p/a.js", "/p/b.md", "/p/a.js"] "/p"
        (fun r => r = "b.md") (fun pp f => String.mk (f.data.drop (pp.data.length + 1)))
        (fun pp f => pp ++ "/" ++ f)).2.2.2 "/p/a.js" (by decide))

/-- **C7**: exclusion wins over inclusion.  A candidate that matches an
include rule (here an `include.extensions` entry) but whose relative path
is listed in `exclude.files` is rejected: the exclusion checks of
`filterFiles` run before the inclusion checks. -/
theorem filterFiles_exclude_precedence (files : List String) (projectPath : String)
    (incl excl : FilterOptions) (ignores : String → Bool)
    (relative pathJoin : String → String → String) (f : String)
    (hinc : incl.extensions.any (fun ext => jsEndsWith f ext) = true)
    (hexc : excl.files.contains (relative projectPath f) = true) :
    f ∉ filterFiles files projectPath incl excl ignores relative pathJoin := by
  intro hmem
  have hhf : hasFilters incl excl = true := by
    unfold hasFilters
    rcases hai : incl.extensions with _ | _
    · rw [hai] at hinc; simp at hinc
    · simp
  unfold filterFiles at hmem
  rw [hhf] at hmem
  simp only [Bool.not_true, Bool.false_eq_true, if_false] at hmem
  have hpred := (List.mem_filter.mp hmem).2
  unfold filterPred at hpred
  simp only [hexc] at hpred
  split at hpred <;> simp_all

/-- **C7 witness**: `a.js` matches the include extension `.js` and is
listed in `exclude.files`; it is rejected. -/
theorem filterFiles_exclude_precedence_witness :
    (FilterOptions.mk [] [".js"] []).extensions.any (fun ext => jsEndsWith "/p/a.js" ext) = true ∧
    (FilterOptions.mk ["a.js"] [] []).files.contains
      ((fun pp f => String.mk (f.data.drop (pp.data.length + 1))) "/p" "/p/a.js") = true ∧
    "/p/a.js" ∉ filterFiles ["/p/a.js"] "/p" (FilterOptions.mk [] [".js"] [])
      (FilterOptions.mk ["a.js"] [] []) (fun _ => false)
      (fun pp f => String.mk (f.data.drop (pp.data.length + 1))) (fun pp f => pp ++ "/" ++ f) :=
  ⟨by decide, by decide,
   filterFiles_exclude_precedence ["/p/a.js"] "/p" (FilterOptions.mk [] [".js"] [])
     (FilterOptions.mk ["a.js"] [] []) (fun _ => false)
     (fun pp f => String.mk (f.data.drop (pp.data.length + 1))) (fun pp f => pp ++ "/" ++ f) "/p/a.js"
     (by decide) (by decide)⟩

/-- **C9**: the block appended to the sink for a successfully processed
file is exactly `relativePath ++ "\n" ++ minifyCode content ++ "\n\n"`;
for the scenario file `a.js` with content `"// hi\nconst x=1;"` that block
is `"a.js\nconst x=1;\n\n"`. -/
theorem processFile_block_format :
    (∀ (fsRead : String → Except String String) (relative : String → String → String)
        (filePath projectPath : String) (buf : OutputBuffer) (content : String),
        fsRead filePath = Except.ok content →
        processFile fsRead relative filePath projectPath buf =
          Except.ok (buf.add
            (relative projectPath filePath ++ "\n" ++ minifyCode content ++ "\n\n"))) ∧
    "a.js" ++ "\n" ++ minifyCode "// hi\nconst x=1;" ++ "\n\n" = "a.js\nconst x=1;\n\n" := by
  constructor
  · intro fsRead relative filePath projectPath buf content h
    unfold processFile
    rw [h]
  · decide

/-- **C9 witness**: the general block-format statement applied to the
scenario file. -/
theorem processFile_block_format_witness :
    processFile (fun _ => Except.ok "// hi\nconst x=1;") relFromRoot "/p/a.js" "/p"
        createOutputBuffer
      = Except.ok (createOutputBuffer.add
          (relFromRoot "/p" "/p/a.js" ++ "\n" ++ minifyCode "// hi\nconst x=1;" ++ "\n\n")) :=
  processFile_block_format.1 (fun _ => Except.ok "// hi\nconst x=1;") relFromRoot
    "/p/a.js" "/p" createOutputBuffer "// hi\nconst x=1;" rfl

/-- **C10**: `processFile` is atomic on failure.  If the read fails, the
error is wrapped and returned and nothing is appended: the single
whole-block `add` of the happy path never runs, so the driver keeps the
sink state unchanged for that file. -/
theorem processFile_atomic_on_failure :
    ∀ (fsRead : String → Except String String) (relative : String → String → String)
      (filePath projectPath : String) (buf : OutputBuffer) (e : String),
      fsRead filePath = Except.error e →
      processFile fsRead relative filePath projectPath buf
        = Except.error ⟨"Failed to process file: " ++ e, filePath⟩ ∧
      (runQueue fsRead relative projectPath [filePath] buf).1 = buf := by
  intro fsRead relative filePath projectPath buf e h
  have hp : processFile fsRead relative filePath projectPath buf
      = Except.error ⟨"Failed to process file: " ++ e, filePath⟩ := by
    unfold processFile
    rw [h]
  refine ⟨hp, ?_⟩
  unfold runQueue
  simp [hp]

/-- **C10 witness**: a concrete unreadable file leaves the sink state
untouched. -/
theorem processFile_atomic_on_failure_witness :
    processFile (fun _ => Except.error "EACCES: permission denied") relFromRoot "/p/c.js" "/p"
        createOutputBuffer
      = Except.error ⟨"Failed to process file: " ++ "EACCES: permission denied", "/p/c.js"⟩ ∧
    (runQueue (fun _ => Except.error "EACCES: permission denied") relFromRoot "/p"
        ["/p/c.js"] createOutputBuffer).1 = createOutputBuffer :=
  processFile_atomic_on_failure (fun _ => Except.error "EACCES: permission denied") relFromRoot
    "/p/c.js" "/p" createOutputBuffer "EACCES: permission denied" rfl

/-- **C3**: the skip-and-continue claim fails on the code.  In the P7
scenario (five files, `c.js` unreadable) every task runs and the four
successful blocks are added to the buffer, but `queue.addAll` rejects
with the first failure and `main`'s catch skips `closeOutputBuffer`, so
nothing is ever flushed: the artifact is empty instead of containing the
four successful blocks the claim requires.  The same run with `c.js`
readable flushes all five blocks on close. -/
theorem main_failure_loses_buffered_blocks :
    mainArtifact fsFive relFromRoot "/p" fiveFiles = "" ∧
    (runQueue fsFive relFromRoot "/p" fiveFiles createOutputBuffer).1.buffer
      = ["a.js\nconst a=1;\n\n", "b.js\nconst b=2;\n\n",
         "d.js\nconst d=4;\n\n", "e.js\nconst e=5;\n\n"] ∧
    (runQueue fsFive relFromRoot "/p" fiveFiles createOutputBuffer).2
      = some ⟨"Failed to process file: " ++ "EACCES: permission denied", "/p/c.js"⟩ ∧
    mainArtifact fsFiveOk relFromRoot "/p" fiveFiles
      = "a.js\nconst a=1;\n\nb.js\nconst b=2;\n\nc.js\nconst c=3;\n\nd.js\nconst d=4;\n\ne.js\nconst e=5;\n\n" := by
  exact ⟨by decide, by decide, by decide, by decide⟩

/-- **C2 counterexample**: after the SIGINT cleanup of an interrupted
run, the output artifact still exists and holds the partial content the
close flushed; the claimed deletion of the incomplete artifact does not
happen. -/
theorem cleanup_keeps_artifact_cex :
    (cleanup interruptedState).artifactExists = true ∧
    (cleanup interruptedState).artifactContent = "a.js\nconst x=1;\n\n" := by
  exact ⟨by decide, by decide⟩

/-- **C2 amended**: on interruption the cleanup path flushes and closes
the sink but never deletes the output artifact: the artifact file
survives with exactly the previously flushed content plus whatever was
still buffered. -/
theorem cleanup_never_deletes_artifact (s : AppState) :
    (cleanup s).artifactExists = s.artifactExists ∧
    (∀ b, s.currentOutputBuffer = some b →
      (cleanup s).artifactContent = b.flushed ++ String.join b.buffer) := by
  constructor
  · unfold cleanup
    cases s.currentOutputBuffer <;> simp
  · intro b hb
    unfold cleanup
    rw [hb]
    simp only [closeOutputBuffer, OutputBuffer.close, OutputBuffer.flush]
    by_cases hbuf : b.buffer.isEmpty
    · simp [hbuf, List.isEmpty_iff.mp hbuf, String.join]
    · simp [hbuf]

/-- **C2 amended witness**: the amended statement at the concrete
interrupted state. -/
theorem cleanup_never_deletes_artifact_witness :
    (cleanup interruptedState).artifactExists = interruptedState.artifactExists ∧
    (cleanup interruptedState).artifactContent
      = ("" : String) ++ String.join ["a.js\nconst x=1;\n\n"] :=
  ⟨(cleanup_never_deletes_artifact interruptedState).1,
   (cleanup_never_deletes_artifact interruptedState).2
     ⟨["a.js\nconst x=1;\n\n"], 17, ""⟩ rfl⟩

/-- **C4 counterexample**: with the project ignore file present but
unreadable, `loadIgnorePatterns` does not fall back to the default
patterns; it throws a `GitignoreError`, and the run aborts fatally
instead of proceeding. -/
theorem loadIgnorePatterns_read_failure_cex :
    loadIgnorePatterns ["node_modules/"] true (Except.error "EACCES: permission denied")
      ≠ Except.ok ["node_modules/"] ∧
    mainLoadPhase ["node_modules/"] true (Except.error "EACCES: permission denied")
      = RunStart.fatalExit 1 := by
  exact ⟨by decide, by decide⟩

/-- **C4 amended**: if the project ignore file exists but cannot be read,
`loadIgnorePatterns` throws a `GitignoreError` that propagates to
`main`'s outer catch, and the run exits fatally with code 1; the failure
is not recovered by falling back to the defaults. -/
theorem loadIgnorePatterns_read_failure_fatal
    (defaultPatterns : List String) (e : String) :
    loadIgnorePatterns defaultPatterns true (Except.error e)
      = Except.error ⟨"Failed to load ignore patterns: " ++ e⟩ ∧
    mainLoadPhase defaultPatterns true (Except.error e) = RunStart.fatalExit 1 :=
  ⟨rfl, rfl⟩

/-- `(String.join l).length` is the sum of the lengths. -/
theorem length_join_strings (l : List String) :
    (String.join l).length = (l.map String.length).sum := by
  have haux : ∀ (l : List String) (s : String),
      (l.foldl (fun a b => a ++ b) s).length = s.length + (l.map String.length).sum := by
    intro l
    induction l with
    | nil => intro s; simp
    | cons x xs ih =>
        intro s
        simp only [List.foldl_cons, List.map_cons, List.sum_cons]
        rw [ih (s ++ x), String.length_append]
        omega
  have : String.join l = l.foldl (fun a b => a ++ b) "" := rfl
  rw [this, haux]
  simp

set_option maxRecDepth 40000 in
/-- **C5**: under the deferred buffer clearing, the closed artifact of
the 101-file race schedule duplicates the first 100 blocks (it is
`join (b0..b99) ++ join (b0..b100)`), so it is not the concatenation of
the 101 per-file blocks in any completion order: every such concatenation
has total length 698, the raced artifact has length 1388. -/
theorem outputBuffer_flush_race_duplicates (order : List String)
    (hperm : order.Perm raceBlocks) :
    closeArtifact (runEvents raceSchedule) ≠ String.join order := by
  intro he
  have hlen : (String.join order).length = (String.join raceBlocks).length := by
    rw [length_join_strings, length_join_strings,
      List.Perm.sum_eq (hperm.map String.length)]
  have h1 : (closeArtifact (runEvents raceSchedule)).length = 1388 := by decide
  have h2 : (String.join raceBlocks).length = 698 := by decide
  rw [he] at h1
  omega

/-- **C5 witness**: the race theorem applied to the submission order
itself. -/
theorem outputBuffer_flush_race_duplicates_witness :
    raceBlocks.Perm raceBlocks ∧
    closeArtifact (runEvents raceSchedule) ≠ String.join raceBlocks :=
  ⟨List.Perm.refl raceBlocks,
   outputBuffer_flush_race_duplicates raceBlocks (List.Perm.refl raceBlocks)⟩

/-! ## C8: idempotence of the content transform

`minifyCode` is **not** idempotent: stripping one block comment can
expose a new `/* ... */` pair that the single global regex pass never
rescans, so a second application strips further text.  It **is**
idempotent on every input whose minified form is a fixed point of the two
comment-stripping passes; the lemmas below show the whitespace passes are
always fixed on minified output, so those two passes are the only
possible source of change. -/

/-- **C8 counterexample**: removing `/*c*/` from `a://*c*/*b*/d` exposes
the new block comment `/*b*/` (the leading `//` is protected by the `:`
lookbehind), so a second application strips it:
`minifyCode` once gives `a:/*b*/d`, twice gives `a:d`. -/
theorem minifyCode_not_idempotent_cex :
    minifyCode (minifyCode "a://*c*/*b*/d") ≠ minifyCode "a://*c*/*b*/d" := by
  decide

theorem noAdjWs_tail {x : Char} {xs : List Char} (h : noAdjWs (x :: xs)) :
    noAdjWs xs := by
  cases xs with
  | nil => trivial
  | cons y ys => exact h.2

theorem noAdjWs_cons {c : Char} {l : List Char}
    (hhead : ∀ d, l.head? = some d → ¬(isJsWs c = true ∧ isJsWs d = true))
    (hl : noAdjWs l) : noAdjWs (c :: l) := by
  cases l with
  | nil => trivial
  | cons y ys => exact ⟨hhead y rfl, hl⟩

/-- Every whitespace character the collapse scanner emits is a space. -/
theorem collapseWsGo_ws_space (l : List Char) :
    ∀ (b : Bool), ∀ c ∈ collapseWsGo b l, isJsWs c = true → c = ' ' := by
  induction l with
  | nil => intro b c hc; simp [collapseWsGo] at hc
  | cons x xs ih =>
      intro b c hc hw
      unfold collapseWsGo at hc
      by_cases hx : isJsWs x
      · rw [if_pos hx] at hc
        cases b with
        | true => exact ih true c hc hw
        | false =>
            rcases List.mem_cons.mp hc with h | h
            · exact h
            · exact ih true c h hw
      · rw [if_neg hx] at hc
        rcases List.mem_cons.mp hc with h | h
        · subst h; exact absurd hw (by simp [hx])
        · exact ih false c h hw

/-- The head of the collapse scanner output in skip mode is not
whitespace. -/
theorem collapseWsGo_true_head (l : List Char) :
    ∀ c, (collapseWsGo true l).head? = some c → isJsWs c = false := by
  induction l with
  | nil => intro c hc; simp [collapseWsGo] at hc
  | cons x xs ih =>
      intro c hc
      unfold collapseWsGo at hc
      by_cases hx : isJsWs x
      · rw [if_pos hx] at hc
        exact ih c hc
      · rw [if_neg hx] at hc
        simp only [List.head?_cons, Option.some.injEq] at hc
        subst hc
        simpa using hx

/-- The collapse scanner never emits two adjacent whitespace
characters. -/
theorem collapseWsGo_noAdjWs (l : List Char) : ∀ b, noAdjWs (collapseWsGo b l) := by
  induction l with
  | nil => intro b; simp [collapseWsGo, noAdjWs]
  | cons x xs ih =>
      intro b
      unfold collapseWsGo
      by_cases hx : isJsWs x
      · rw [if_pos hx]
        cases b with
        | true => exact ih true
        | false =>
            refine noAdjWs_cons ?_ (ih true)
            intro d hd habs
            have := collapseWsGo_true_head xs d hd
            rw [this] at habs
            exact absurd habs.2 (by simp)
      · rw [if_neg hx]
        refine noAdjWs_cons ?_ (ih false)
        intro d _ habs
        exact absurd habs.1 (by simp [hx])

/-- On a list whose whitespace is single isolated spaces, the collapse
scanner is the identity. -/
theorem collapseWs_fix (l : List Char)
    (hws : ∀ c ∈ l, isJsWs c = true → c = ' ')
    (hadj : noAdjWs l) :
    collapseWsGo false l = l ∧
    ((∀ d, l.head? = some d → isJsWs d = false) → collapseWsGo true l = l) := by
  induction l with
  | nil => simp [collapseWsGo]
  | cons x xs ih =>
      have hws2 : ∀ c ∈ xs, isJsWs c = true → c = ' ' :=
        fun c hc => hws c (List.mem_cons_of_mem _ hc)
      obtain ⟨ihf, iht⟩ := ih hws2 (noAdjWs_tail hadj)
      by_cases hx : isJsWs x
      · have hsp : x = ' ' := hws x (List.mem_cons_self _ _) hx
        have hxs : collapseWsGo true xs = xs := by
          apply iht
          intro d hd
          cases xs with
          | nil => simp at hd
          | cons y ys =>
              simp only [List.head?_cons, Option.some.injEq] at hd
              rw [← hd]
              by_cases hy : isJsWs y
              · exact absurd ⟨hx, hy⟩ hadj.1
              · simpa using hy
        constructor
        · unfold collapseWsGo
          rw [if_pos hx, if_neg (by simp)]
          rw [hxs, hsp]
        · intro hh
          have := hh x rfl
          rw [this] at hx
          exact absurd hx (by simp)
      · constructor
        · unfold collapseWsGo
          rw [if_neg hx, ihf]
        · intro _
          unfold collapseWsGo
          rw [if_neg hx, ihf]

/-! ### Trim lemmas -/

theorem dropWhileW_head (l : List Char) :
    ∀ c, (l.dropWhile isJsWs).head? = some c → isJsWs c = false := by
  induction l with
  | nil => intro c hc; simp at hc
  | cons x xs ih =>
      intro c hc
      rw [List.dropWhile_cons] at hc
      by_cases hx : isJsWs x
      · rw [if_pos (by simp [hx])] at hc
        exact ih c hc
      · rw [if_neg (by simp [hx])] at hc
        simp only [List.head?_cons, Option.some.injEq] at hc
        rw [← hc]
        simpa using hx

theorem dropWhileW_fix (l : List Char)
    (h : ∀ c, l.head? = some c → isJsWs c = false) :
    l.dropWhile isJsWs = l := by
  cases l with
  | nil => rfl
  | cons x xs =>
      rw [List.dropWhile_cons, if_neg (by simp [h x rfl])]

theorem dropWhileW_mem (l : List Char) :
    ∀ c ∈ l.dropWhile isJsWs, c ∈ l := by
  induction l with
  | nil => simp
  | cons x xs ih =>
      intro c hc
      rw [List.dropWhile_cons] at hc
      by_cases hx : isJsWs x
      · rw [if_pos (by simp [hx])] at hc
        exact List.mem_cons_of_mem _ (ih c hc)
      · rw [if_neg (by simp [hx])] at hc
        exact hc

theorem dropWhileW_noAdjWs (l : List Char) (h : noAdjWs l) :
    noAdjWs (l.dropWhile isJsWs) := by
  induction l with
  | nil => trivial
  | cons x xs ih =>
      rw [List.dropWhile_cons]
      by_cases hx : isJsWs x
      · rw [if_pos (by simp [hx])]
        exact ih (noAdjWs_tail h)
      · rw [if_neg (by simp [hx])]
        exact h

theorem trimEndW_head (l : List Char) :
    trimEndW l = [] ∨ (trimEndW l).head? = l.head? := by
  cases l with
  | nil => exact Or.inl rfl
  | cons c cs =>
      unfold trimEndW
      cases h : trimEndW cs with
      | nil =>
          by_cases hc : isJsWs c
          · rw [if_pos hc]; exact Or.inl rfl
          · rw [if_neg hc]; exact Or.inr rfl
      | cons y ys => exact Or.inr rfl

theorem trimEndW_mem (l : List Char) : ∀ c ∈ trimEndW l, c ∈ l := by
  induction l with
  | nil => simp [trimEndW]
  | cons x xs ih =>
      intro c hc
      unfold trimEndW at hc
      cases h : trimEndW xs with
      | nil =>
          rw [h] at hc
          by_cases hx : isJsWs x
          · rw [if_pos hx] at hc; simp at hc
          · rw [if_neg hx] at hc
            simp only [List.mem_singleton] at hc
            rw [hc]; exact List.mem_cons_self _ _
      | cons y ys =>
          rw [h] at hc
          rcases List.mem_cons.mp hc with hcx | hcr
          · rw [hcx]; exact List.mem_cons_self _ _
          · exact List.mem_cons_of_mem _ (ih c (h ▸ hcr))

theorem trimEndW_noAdjWs (l : List Char) (hl : noAdjWs l) :
    noAdjWs (trimEndW l) := by
  induction l with
  | nil => trivial
  | cons x xs ih =>
      unfold trimEndW
      cases h : trimEndW xs with
      | nil =>
          by_cases hx : isJsWs x
          · rw [if_pos hx]; trivial
          · rw [if_neg hx]; trivial
      | cons y ys =>
          refine noAdjWs_cons ?_ (h ▸ ih (noAdjWs_tail hl))
          intro d hd habs
          simp only [List.head?_cons, Option.some.injEq] at hd
          rcases trimEndW_head xs with hnil | hh
          · rw [hnil] at h; cases h
          · rw [h] at hh
            cases xs with
            | nil => simp [trimEndW] at h
            | cons z zs =>
                simp only [List.head?_cons, Option.some.injEq] at hh
                rw [← hd, hh] at habs
                exact hl.1 habs

theorem trimEndW_cons_eq (x : Char) (xs : List Char) :
    trimEndW (x :: xs)
      = match trimEndW xs with
        | [] => if isJsWs x then [] else [x]
        | r => x :: r := rfl

theorem trimEndW_idem (l : List Char) : trimEndW (trimEndW l) = trimEndW l := by
  induction l with
  | nil => rfl
  | cons x xs ih =>
      cases h : trimEndW xs with
      | nil =>
          have e1 : trimEndW (x :: xs) = if isJsWs x then [] else [x] := by
            rw [trimEndW_cons_eq, h]
          by_cases hx : isJsWs x
          · rw [e1, if_pos hx]; rfl
          · rw [e1, if_neg hx]
            rw [trimEndW_cons_eq]
            rw [show trimEndW ([] : List Char) = [] from rfl]
            rw [if_neg hx]
      | cons y ys =>
          have e1 : trimEndW (x :: xs) = x :: y :: ys := by
            rw [trimEndW_cons_eq, h]
          rw [h] at ih
          rw [e1, trimEndW_cons_eq, ih]

theorem jsTrim_mem (l : List Char) : ∀ c ∈ jsTrim l, c ∈ l := by
  intro c hc
  exact dropWhileW_mem l c (trimEndW_mem _ c hc)

theorem jsTrim_noAdjWs (l : List Char) (h : noAdjWs l) : noAdjWs (jsTrim l) :=
  trimEndW_noAdjWs _ (dropWhileW_noAdjWs l h)

theorem jsTrim_head (l : List Char) :
    ∀ c, (jsTrim l).head? = some c → isJsWs c = false := by
  intro c hc
  unfold jsTrim at hc
  rcases trimEndW_head (l.dropWhile isJsWs) with hnil | hh
  · rw [hnil] at hc; cases hc
  · rw [hh] at hc
    exact dropWhileW_head l c hc

theorem jsTrim_idem (l : List Char) : jsTrim (jsTrim l) = jsTrim l := by
  unfold jsTrim
  rw [dropWhileW_fix (trimEndW ((l.dropWhile isJsWs)))
    (fun c hc => jsTrim_head l c hc)]
  exact trimEndW_idem _

/-! ### Fixpoint lemmas for the line-oriented passes -/

theorem normCRLF_fix (l : List Char) (h : '\r' ∉ l) : normCRLF l = l := by
  induction l with
  | nil => rfl
  | cons c cs ih =>
      have hc : c ≠ '\r' := fun hcr => h (hcr ▸ List.mem_cons_self c cs)
      have hcs : '\r' ∉ cs := fun hm => h (List.mem_cons_of_mem _ hm)
      cases cs with
      | nil => rfl
      | cons d rest =>
          have e : normCRLF (c :: d :: rest)
              = if c = '\r' ∧ d = '\n' then '\n' :: normCRLF rest
                else c :: normCRLF (d :: rest) := rfl
          rw [e, if_neg (fun hand => hc hand.1), ih hcs]

theorem splitNl_fix (l : List Char) (h : '\n' ∉ l) : splitNl l = [l] := by
  induction l with
  | nil => rfl
  | cons c cs ih =>
      have hc : c ≠ '\n' := fun hcr => h (hcr ▸ List.mem_cons_self c cs)
      have hcs : '\n' ∉ cs := fun hm => h (List.mem_cons_of_mem _ hm)
      have e : splitNl (c :: cs)
          = if c = '\n' then [] :: splitNl cs
            else
              match splitNl cs with
              | l :: ls => (c :: l) :: ls
              | [] => [[c]] := rfl
      rw [e, if_neg hc, ih hcs]

/-! ### Shape of minified output -/

theorem minifyCode_data_eq (s : String) :
    (minifyCode s).data
      = jsTrim (collapseWs (joinSp
          (((splitNl (normCRLF (stripBlockComments (stripLineComments s.data)))).map
              jsTrim).filter (fun l => !l.isEmpty)))) := rfl

theorem minifyCode_data_ws (s : String) :
    ∀ c ∈ (minifyCode s).data, isJsWs c = true → c = ' ' := by
  rw [minifyCode_data_eq]
  intro c hc hw
  exact collapseWsGo_ws_space _ false c (jsTrim_mem _ c hc) hw

theorem minifyCode_data_noAdjWs (s : String) : noAdjWs (minifyCode s).data := by
  rw [minifyCode_data_eq]
  exact jsTrim_noAdjWs _ (collapseWsGo_noAdjWs _ false)

theorem minifyCode_data_no_cr (s : String) : '\r' ∉ (minifyCode s).data := by
  intro hm
  have := minifyCode_data_ws s '\r' hm (by decide)
  exact absurd this (by decide)

theorem minifyCode_data_no_nl (s : String) : '\n' ∉ (minifyCode s).data := by
  intro hm
  have := minifyCode_data_ws s '\n' hm (by decide)
  exact absurd this (by decide)

theorem minifyCode_data_trim_fix (s : String) :
    jsTrim (minifyCode s).data = (minifyCode s).data := by
  rw [minifyCode_data_eq]
  exact jsTrim_idem _

theorem minifyCode_data_collapse_fix (s : String) :
    collapseWs (minifyCode s).data = (minifyCode s).data :=
  (collapseWs_fix _ (minifyCode_data_ws s) (minifyCode_data_noAdjWs s)).1

/-- **C8 amended**: `minifyCode` is idempotent on every input whose
minified output is a fixed point of the two comment-stripping passes (the
whitespace passes are always fixed on minified output); in general a
second application can strip further comments exposed by the first, as
the counterexample shows. -/
theorem minifyCode_idempotent_of_no_new_comments (s : String)
    (h : stripBlockComments (stripLineComments (minifyCode s).data)
          = (minifyCode s).data) :
    minifyCode (minifyCode s) = minifyCode s := by
  have key : minifyCode (minifyCode s)
      = String.mk (jsTrim (collapseWs (joinSp
          (((splitNl (normCRLF (stripBlockComments (stripLineComments (minifyCode s).data)))).map
              jsTrim).filter (fun l => !l.isEmpty))))) := rfl
  rw [key, h, normCRLF_fix _ (minifyCode_data_no_cr s),
    splitNl_fix _ (minifyCode_data_no_nl s)]
  by_cases hm : (minifyCode s).data = []
  · rw [hm]
    conv_rhs => rw [show minifyCode s = String.mk (minifyCode s).data from rfl, hm]
    rfl
  · have hfil : (([(minifyCode s).data].map jsTrim).filter (fun l => !l.isEmpty))
        = [(minifyCode s).data] := by
      rw [List.map_cons, List.map_nil, minifyCode_data_trim_fix s]
      rw [List.filter_cons]
      rw [if_pos (by simp [List.isEmpty_iff, hm])]
      rfl
    rw [hfil]
    rw [show joinSp [(minifyCode s).data] = (minifyCode s).data from rfl]
    rw [minifyCode_data_collapse_fix s, minifyCode_data_trim_fix s]

/-- **C8 amended witness**: the conditional idempotence applied to the
scenario content, whose minified output contains no further comments. -/
theorem minifyCode_idempotent_of_no_new_comments_witness :
    stripBlockComments (stripLineComments (minifyCode "// hi\nconst x=1;").data)
      = (minifyCode "// hi\nconst x=1;").data ∧
    minifyCode (minifyCode "// hi\nconst x=1;") = minifyCode "// hi\nconst x=1;" :=
  ⟨by decide, minifyCode_idempotent_of_no_new_comments "// hi\nconst x=1;" (by decide)⟩
